import Mathlib

/-
A shallow embedding of the miner node implemented in src/src/miner.js.

The core state is the Miner object (transaction pool, transaction map,
blockchain, node list, mining toggle, keys).  External collaborators
(the blockblockchain and transactionblockchain npm packages: block
creation, hashing, chain verification, transaction verification and
signing) are opaque and gathered in the Ext record of function
parameters.  Where a claim needs the observable shape of an external
value (the fields a transaction carries, the effect of appending a
transaction to a block or to the index), that shape is taken from the
spec's data model, which declares it.

The repository files util.js and message.js are not under src/; the
parts of their behaviour that claims depend on (deferred, joined
per-transaction validations; one export-completion callback per peer)
are modelled from the spec and marked as such on the definitions.
-/

namespace MinerBlockchain

/-- Type tag of a transaction: ordinary transfer or coinbase new-coin
(Transaction.TYPES.NEW_COIN in the source). -/
inductive TxType where
  | transfer
  | new_coin
deriving DecidableEq, Repr

/-- One output of a transaction: a credited public key and an amount.
The reward amount 1.0 in the source is integral, so amounts are
modelled as integers. -/
structure TxOutput where
  owner_public_key : String
  value : Int
deriving DecidableEq, Repr

/-- A transaction, per the spec's data model: creating key, inputs,
outputs, a type tag and a signature.  The core never inspects the
internals beyond constructing coinbase transactions. -/
structure Tx where
  sender_public_key : String
  inputs : List TxOutput
  outputs : List TxOutput
  txType : TxType
  signature : String
deriving DecidableEq, Repr

/-- The TransactionIndex (this.transaction_map): a set keyed by
transaction identity, modelled as a list with membership by value. -/
abbrev TxMap := List Tx

/-- A block: transaction data, a mutable nonce, the predecessor hash
and its own hash. -/
structure Block where
  data : List Tx
  nonce : Nat
  previous_hash : String
  hash : String
deriving DecidableEq, Repr

/-- Result of Block.getVerificationMetadata: a validity flag and the
transaction map implied by replaying the candidate chain. -/
structure ChainVerification where
  valid : Bool
  transaction_map : TxMap
deriving DecidableEq, Repr

/-- A peer endpoint: address and port. -/
structure Peer where
  address : String
  port : Nat
deriving DecidableEq, Repr

/-- The external collaborators of the core (blockblockchain and
transactionblockchain packages), kept opaque as function parameters:
Block.create, Block.createFrom, Block.computeHash,
Block.getVerificationMetadata, Transaction.verify and the signer used
by Transaction.create. -/
structure Ext where
  createBlock : String → Block
  createFrom : Block → Block
  blockHash : Block → String
  verifyChain : List Block → ChainVerification
  verifyTx : Tx → TxMap → Block → Bool
  sign : String → String

/-- The Miner object's mutable state (the fields set up in the Miner
constructor; the logger and TCP server are observability/transport and
carry no core state). -/
structure Miner where
  transaction_pool : List Tx
  transaction_map : TxMap
  blockchain : List Block
  node_list : List Peer
  port : Nat
  host : String
  actively_mining : Bool
  miner_public_key : String
  miner_private_key : String
  owner_public_key : String
deriving DecidableEq, Repr

/-- Transaction.create of the external package, shaped per the spec's
data model: it records the creating public key, the inputs, outputs
and type tag, and a signature produced by the external signer from the
private key. -/
def Transaction.create (ext : Ext) (pub priv : String)
    (ins outs : List TxOutput) (ty : TxType) : Tx :=
  { sender_public_key := pub, inputs := ins, outputs := outs,
    txType := ty, signature := ext.sign priv }

/-- Transaction.addToMap of the external package, shaped per the spec:
record the transaction in the index (a set keyed by identity). -/
def Transaction.addToMap (t : Tx) (m : TxMap) : TxMap := t :: m

/-- Block.addTransaction of the external package, shaped per the spec:
append the transaction to the block's data. -/
def Block.addTransaction (b : Block) (t : Tx) : Block :=
  { b with data := b.data ++ [t] }

/-- latestBlock: the last block of the chain; none models the
undefined value JavaScript yields on an empty chain. -/
def latestBlock (s : Miner) : Option Block :=
  s.blockchain.getLast?

/-- In-place mutation of the tip block (latestBlock().data.push,
nonce++, Block.addTransaction on the tip): replace the last block. -/
def replaceTip (l : List Block) (b : Block) : List Block :=
  l.dropLast ++ [b]

/-- addTransactionToPool: append a transaction to the pool. -/
def addTransactionToPool (s : Miner) (t : Tx) : Miner :=
  { s with transaction_pool := s.transaction_pool ++ [t] }

/-- The by-value peer comparison of addNodes: same address and same
port. -/
def samePeer (n m : Peer) : Bool :=
  n.address == m.address && n.port == m.port

/-- addNodes: insert each given node unless one with the same address
and port is already in the list; the membership scan reads the list as
already extended by earlier insertions of the same call. -/
def addNodes (ns : List Peer) (s : Miner) : Miner :=
  { s with node_list :=
      ns.foldl (fun acc n =>
        if acc.any (fun m => samePeer n m)
        then acc else acc ++ [n]) s.node_list }

/-- createNewCoin: the coinbase transaction, built by
Transaction.create with no inputs, a single output crediting
this.miner_public_key with 1.0, and the NEW_COIN type tag. -/
def createNewCoin (ext : Ext) (s : Miner) : Tx :=
  Transaction.create ext s.miner_public_key s.miner_private_key []
    [{ owner_public_key := s.miner_public_key, value := 1 }] TxType.new_coin

/-- createGenesisBlock: reset the chain to a single block created from
the "GENESIS" sentinel and empty the transaction map. -/
def createGenesisBlock (ext : Ext) (s : Miner) : Miner :=
  { s with blockchain := [ext.createBlock "GENESIS"], transaction_map := [] }

/-- createGenesisIfNeeded: create the genesis block only when the
blockchain is empty. -/
def createGenesisIfNeeded (ext : Ext) (s : Miner) : Miner :=
  if s.blockchain.length = 0 then createGenesisBlock ext s else s

/-- pushNewBlock: append Block.createFrom of the tip to the chain and
enqueue a fresh coinbase transaction in the pool; none models the
failed tip access on an empty chain. -/
def pushNewBlock (ext : Ext) (s : Miner) : Option Miner :=
  match latestBlock s with
  | none => none
  | some tip =>
      let s1 := { s with blockchain := s.blockchain ++ [ext.createFrom tip] }
      some (addTransactionToPool s1 (createNewCoin ext s1))

/-- flushTransaction: tentatively push the transaction onto the tip
block's data, ask the external validator with the current transaction
map and that tentatively extended tip, pop it again, and on acceptance
record it in the map and append it to the tip via
Block.addTransaction; none models the failed tip access on an empty
chain. -/
def flushTransaction (ext : Ext) (s : Miner) (t : Tx) : Option Miner :=
  match latestBlock s with
  | none => none
  | some tip =>
      if ext.verifyTx t s.transaction_map { tip with data := tip.data ++ [t] } then
        some { s with
          transaction_map := Transaction.addToMap t s.transaction_map,
          blockchain := replaceTip s.blockchain (Block.addTransaction tip t) }
      else some s

/-- flushTransactionPool.  Modelled from the spec: Util.unblock and
Util.waitForAll live in util.js, which is not under src/; per the
spec's scheduling model the per-transaction validations are deferred
until after the pool is emptied and are joined before the flush
completes, and promise callbacks run in creation order, so the flush
is the emptied-pool state folded through flushTransaction over the
drained batch in order. -/
def flushTransactionPool (ext : Ext) (s : Miner) : Option Miner :=
  s.transaction_pool.foldl
    (fun acc t => acc.bind fun n => flushTransaction ext n t)
    (some { s with transaction_pool := [] })

/-- receiveNewBlockchain: adopt a candidate chain only when it is
strictly longer than the current one and Block.getVerificationMetadata
declares it valid; on adoption, re-enqueue the old tip's staged
transactions, replace the chain and transaction map with the
candidate's, and run pushNewBlock; none models the crash reading the
data field of an undefined tip when the current chain is empty. -/
def receiveNewBlockchain (ext : Ext) (cand : List Block) (s : Miner) : Option Miner :=
  if s.blockchain.length < cand.length then
    let md := ext.verifyChain cand
    if md.valid then
      match latestBlock s with
      | none => none
      | some oldTip =>
          pushNewBlock ext { s with
            transaction_pool := s.transaction_pool ++ oldTip.data,
            blockchain := cand,
            transaction_map := md.transaction_map }
    else some s
  else some s

/-- Outcome of one computeHash step: idle (not actively mining, delay
and report unsolved), unsolved (nonce bumped, target missed) or solved
(nonce bumped, target met, broadcast barrier begins). -/
inductive HashResult where
  | idle
  | unsolved
  | solved
deriving DecidableEq, Repr

/-- computeHash up to the broadcast barrier: when not actively mining,
delay with no state change; otherwise increment the tip nonce and test
whether the external hash of the updated tip starts with "000"; none
models the failed nonce access on an empty chain. -/
def computeHash (ext : Ext) (s : Miner) : Option (Miner × HashResult) :=
  if s.actively_mining = false then some (s, HashResult.idle)
  else
    match latestBlock s with
    | none => none
    | some tip =>
        let tip1 := { tip with nonce := tip.nonce + 1 }
        let s1 := { s with blockchain := replaceTip s.blockchain tip1 }
        if (ext.blockHash tip1).startsWith "000" then some (s1, HashResult.solved)
        else some (s1, HashResult.unsolved)

/-- State of the broadcast barrier that follows a solve: the node
state and the completed_exports counter. -/
structure BroadcastState where
  node : Miner
  completed_exports : Nat
deriving DecidableEq, Repr

/-- Modelled from the spec: Message.exportBlocks lives in message.js,
which is not under src/; per the spec each peer export invokes one
completion callback.  The callback increments completed_exports and,
exactly when the counter reaches the current node-list length, runs
pushNewBlock and resolves the solve. -/
def exportCallback (ext : Ext) (b : BroadcastState) : Option BroadcastState :=
  let c := b.completed_exports + 1
  if c = b.node.node_list.length then
    (pushNewBlock ext b.node).map fun n => ⟨n, c⟩
  else some ⟨b.node, c⟩

/-- The broadcast barrier after k export-completion callbacks have
fired, starting from the post-solve state s with zero completions. -/
def afterCompletions (ext : Ext) (s : Miner) : Nat → Option BroadcastState
  | 0 => some ⟨s, 0⟩
  | k + 1 => (afterCompletions ext s k).bind (exportCallback ext)

/-- Spec-level description of one flush batch (the amended pool-flush
contract): process the drained transactions in order; at each step
consult the validator with the transaction map and the tentatively
extended tip block as they stand at that step, and on acceptance
commit the transaction to both. -/
def batchRun (ext : Ext) : TxMap → Block → List Tx → TxMap × Block
  | m, b, [] => (m, b)
  | m, b, t :: ts =>
      if ext.verifyTx t m { b with data := b.data ++ [t] } then
        batchRun ext (Transaction.addToMap t m) { b with data := b.data ++ [t] } ts
      else batchRun ext m b ts

/-- The intermediate (map, tip) states a flush batch passes through,
one before each transaction and one final. -/
def midStates (ext : Ext) : TxMap → Block → List Tx → List (TxMap × Block)
  | m, b, [] => [(m, b)]
  | m, b, t :: ts =>
      (m, b) ::
        (if ext.verifyTx t m { b with data := b.data ++ [t] } then
          midStates ext (Transaction.addToMap t m) { b with data := b.data ++ [t] } ts
        else midStates ext m b ts)

/-- A concrete ordinary transaction used in witnesses and
counterexamples. -/
def tx1 : Tx :=
  { sender_public_key := "s1", inputs := [], outputs := [],
    txType := TxType.transfer, signature := "" }

/-- A second concrete ordinary transaction, distinct from tx1. -/
def tx2 : Tx :=
  { sender_public_key := "s2", inputs := [], outputs := [],
    txType := TxType.transfer, signature := "" }

/-- A concrete block with empty data and nonce zero. -/
def blk0 : Block :=
  { data := [], nonce := 0, previous_hash := "", hash := "" }

/-- A second concrete block, distinct from blk0. -/
def blkB : Block :=
  { data := [], nonce := 0, previous_hash := "", hash := "b" }

/-- A concrete instantiation of the external collaborators. -/
def extBase : Ext :=
  { createBlock := fun _ => blk0, createFrom := fun b => b,
    blockHash := fun _ => "", verifyChain := fun _ => ⟨false, []⟩,
    verifyTx := fun _ _ _ => true, sign := fun _ => "" }

/-- External collaborators whose chain verifier accepts everything. -/
def extValid : Ext :=
  { extBase with verifyChain := fun _ => ⟨true, []⟩ }

/-- External collaborators whose transaction validator depends on the
transaction index: tx1 is always valid, any other transaction is valid
exactly when the index is nonempty. -/
def extC3 : Ext :=
  { extBase with
      verifyTx := fun t m _ => t.sender_public_key == "s1" || !m.isEmpty }

/-- A concrete miner holding the single block blk0, with distinct
miner and owner public keys. -/
def miner0 : Miner :=
  { transaction_pool := [], transaction_map := [], blockchain := [blk0],
    node_list := [], port := 0, host := "", actively_mining := false,
    miner_public_key := "minerA", miner_private_key := "sk",
    owner_public_key := "ownerB" }

/-- The concrete miner with an empty blockchain (genesis not yet
bootstrapped). -/
def minerEmpty : Miner :=
  { miner0 with blockchain := [] }

/-- The concrete miner with mining enabled. -/
def minerMining : Miner :=
  { miner0 with actively_mining := true }

/-- The concrete miner with two known peers. -/
def minerPeers : Miner :=
  { miner0 with node_list := [⟨"a", 1⟩, ⟨"b", 2⟩] }

/-- The concrete miner with a one-transaction pool. -/
def minerPoolW : Miner :=
  { miner0 with transaction_pool := [tx1] }

/-- The concrete miner whose pool holds tx1 then tx2. -/
def sC3 : Miner :=
  { miner0 with transaction_pool := [tx1, tx2] }

/- Helper lemmas shared by the claim theorems. -/

lemma latestBlock_concat (s : Miner) (l : List Block) (tip : Block)
    (h : s.blockchain = l ++ [tip]) : latestBlock s = some tip := by
  simp [latestBlock, h, List.getLast?_concat]

lemma replaceTip_concat (l : List Block) (tip b : Block) :
    replaceTip (l ++ [tip]) b = l ++ [b] := by
  simp [replaceTip]

/-- C6: genesis bootstrap is idempotent: createGenesisIfNeeded on an
empty chain yields exactly one genesis block and an empty transaction
index; running it a second time, and running it on any non-empty
chain, changes nothing, so the chain never holds two genesis
blocks. -/
theorem createGenesisIfNeeded_idempotent (ext : Ext) (s : Miner)
    (b : Block) (bs : List Block) :
    (createGenesisIfNeeded ext { s with blockchain := [] }).blockchain =
      [ext.createBlock "GENESIS"] ∧
    (createGenesisIfNeeded ext { s with blockchain := [] }).transaction_map = [] ∧
    createGenesisIfNeeded ext (createGenesisIfNeeded ext s) =
      createGenesisIfNeeded ext s ∧
    createGenesisIfNeeded ext { s with blockchain := b :: bs } =
      { s with blockchain := b :: bs } := by
  refine ⟨by simp [createGenesisIfNeeded, createGenesisBlock],
    by simp [createGenesisIfNeeded, createGenesisBlock], ?_,
    by simp [createGenesisIfNeeded]⟩
  by_cases h : s.blockchain.length = 0
  · simp [createGenesisIfNeeded, createGenesisBlock, h]
  · simp [createGenesisIfNeeded, h]

/-- C8 (amended): every coinbase transaction createNewCoin builds
credits the node's own miner public key with the fixed reward 1 and
carries the new-coin type tag; the separately configured owner public
key of the MinerIdentity is stored but is not the credited key. -/
theorem createNewCoin_fields (ext : Ext) (s : Miner) :
    (createNewCoin ext s).outputs =
      [{ owner_public_key := s.miner_public_key, value := 1 }] ∧
    (createNewCoin ext s).txType = TxType.new_coin ∧
    (createNewCoin ext s).sender_public_key = s.miner_public_key ∧
    (createNewCoin ext s).inputs = [] :=
  ⟨rfl, rfl, rfl, rfl⟩

/-- C8 counterexample: at a node whose configured owner public key is
"ownerB" while its miner public key is "minerA", the coinbase
transaction credits "minerA", not the configured owner key, refuting
the claim that coinbase transactions credit the owner public key. -/
theorem createNewCoin_owner_cex :
    (createNewCoin extBase miner0).outputs.map TxOutput.owner_public_key =
      ["minerA"] ∧
    miner0.owner_public_key = "ownerB" ∧ ("minerA" : String) ≠ "ownerB" :=
  ⟨rfl, rfl, by decide⟩

/-- C9: peer insertion is idempotent by value: addNodes inserts an
(address, port) pair only when no peer with the same address and port
is already present, so starting from a list holding the pair at most
once, adding it twice leaves exactly one matching entry and the second
addition changes nothing. -/
theorem addNodes_dedup (s : Miner) (n : Peer)
    (h : s.node_list.countP (fun m => samePeer n m) ≤ 1) :
    (addNodes [n] s).node_list.countP (fun m => samePeer n m) = 1 ∧
    addNodes [n] (addNodes [n] s) = addNodes [n] s := by
  have hstep : ∀ s1 : Miner, addNodes [n] s1 =
      if (s1.node_list.any fun m => samePeer n m) = true
      then s1 else { s1 with node_list := s1.node_list ++ [n] } := by
    intro s1
    by_cases ha : (s1.node_list.any fun m => samePeer n m) = true
    · rw [if_pos ha]
      show ({ s1 with node_list :=
        if (s1.node_list.any fun m => samePeer n m) = true
        then s1.node_list else s1.node_list ++ [n] } : Miner) = s1
      rw [if_pos ha]
    · rw [if_neg ha]
      show ({ s1 with node_list :=
        if (s1.node_list.any fun m => samePeer n m) = true
        then s1.node_list else s1.node_list ++ [n] } : Miner) =
        { s1 with node_list := s1.node_list ++ [n] }
      rw [if_neg ha]
  by_cases ha : (s.node_list.any fun m => samePeer n m) = true
  · have h1 : 0 < s.node_list.countP (fun m => samePeer n m) := by
      rcases List.any_eq_true.mp ha with ⟨x, hx, hpx⟩
      exact List.countP_pos_iff.mpr ⟨x, hx, hpx⟩
    have hc : s.node_list.countP (fun m => samePeer n m) = 1 := by omega
    have hfix : addNodes [n] s = s := by rw [hstep s, if_pos ha]
    refine ⟨by rw [hfix]; exact hc, ?_⟩
    simp only [hfix]
  · have hc : s.node_list.countP (fun m => samePeer n m) = 0 := by
      refine List.countP_eq_zero.mpr ?_
      intro x hx hpx
      exact ha (List.any_eq_true.mpr ⟨x, hx, hpx⟩)
    have hself : samePeer n n = true := by simp [samePeer]
    have hfst : addNodes [n] s = { s with node_list := s.node_list ++ [n] } := by
      rw [hstep s, if_neg ha]
    constructor
    · rw [hfst]
      simp [List.countP_append, hc, List.countP_cons, hself]
    · have ha2 : (({ s with node_list := s.node_list ++ [n] } : Miner).node_list.any
          fun m => samePeer n m) = true := by
        simp [hself]
      rw [hfst, hstep { s with node_list := s.node_list ++ [n] }, if_pos ha2]

/-- C9 witness: at a miner with an empty peer list, adding the peer
("a", 1) twice leaves exactly one matching entry and the second
addition is a no-op. -/
theorem addNodes_dedup_witness :
    (addNodes [⟨"a", 1⟩] miner0).node_list.countP
      (fun m => samePeer ⟨"a", 1⟩ m) = 1 ∧
    addNodes [⟨"a", 1⟩] (addNodes [⟨"a", 1⟩] miner0) =
      addNodes [⟨"a", 1⟩] miner0 :=
  addNodes_dedup miner0 ⟨"a", 1⟩ (by decide)

/-- C1: receiveNewBlockchain adopts a candidate only when it is
strictly longer than the current chain and passes external
verification; when the candidate is not longer (ties included) or
verification fails, the node state, chain and transaction index
included, is returned bit-for-bit unchanged. -/
theorem receiveNewBlockchain_reject_noChange (ext : Ext) (cand : List Block)
    (s : Miner)
    (h : cand.length ≤ s.blockchain.length ∨ (ext.verifyChain cand).valid = false) :
    receiveNewBlockchain ext cand s = some s := by
  rcases h with h | h
  · simp [receiveNewBlockchain, Nat.not_lt.mpr h]
  · by_cases hl : s.blockchain.length < cand.length
    · simp [receiveNewBlockchain, hl, h]
    · simp [receiveNewBlockchain, hl]

/-- C1 witness: a same-length candidate (one block against one block)
leaves the concrete miner unchanged. -/
theorem receiveNewBlockchain_reject_noChange_witness :
    receiveNewBlockchain extValid [blkB] miner0 = some miner0 :=
  receiveNewBlockchain_reject_noChange extValid [blkB] miner0
    (Or.inl (by decide))

/-- C10: receiveNewBlockchain is only safe on a non-empty current
chain: when the chain is empty and a candidate of length at least one
passes external verification, the handler reads the data field of the
undefined tip block and crashes (modelled as none) instead of adopting
the candidate. -/
theorem receiveNewBlockchain_empty_chain_crash (ext : Ext)
    (cand : List Block) (s : Miner)
    (h0 : s.blockchain = []) (h1 : 1 ≤ cand.length)
    (h2 : (ext.verifyChain cand).valid = true) :
    receiveNewBlockchain ext cand s = none := by
  have hl : s.blockchain.length < cand.length := by
    rw [h0]
    exact Nat.lt_of_lt_of_le (by decide) h1
  have hne : cand ≠ [] := by
    intro hce
    rw [hce] at h1
    exact absurd h1 (by decide)
  simp [receiveNewBlockchain, hl, h2, latestBlock, h0, hne]

/-- C10 witness: an empty-chain miner receiving the verified one-block
candidate [blk0] crashes. -/
theorem receiveNewBlockchain_empty_chain_crash_witness :
    receiveNewBlockchain extValid [blk0] minerEmpty = none :=
  receiveNewBlockchain_empty_chain_crash extValid [blk0] minerEmpty rfl
    (by decide) rfl

/-- C2: on a successful replacement (candidate strictly longer and
externally valid), every transaction staged in the old tip block's
data is re-enqueued into the transaction pool, the chain and
transaction map are replaced by the candidate's, and one new block is
pushed on top of the adopted chain (final length = candidate length
plus one) with exactly one coinbase transaction enqueued in the
pool. -/
theorem receiveNewBlockchain_adopt_spec (ext : Ext) (cand : List Block)
    (s : Miner) (oldTip candTip : Block)
    (h0 : s.blockchain.getLast? = some oldTip)
    (h1 : s.blockchain.length < cand.length)
    (h2 : (ext.verifyChain cand).valid = true)
    (h3 : cand.getLast? = some candTip) :
    ∃ s1, receiveNewBlockchain ext cand s = some s1 ∧
      s1.blockchain = cand ++ [ext.createFrom candTip] ∧
      s1.blockchain.length = cand.length + 1 ∧
      s1.transaction_map = (ext.verifyChain cand).transaction_map ∧
      s1.transaction_pool =
        (s.transaction_pool ++ oldTip.data) ++ [createNewCoin ext s] ∧
      (∀ t ∈ oldTip.data, t ∈ s1.transaction_pool) ∧
      createNewCoin ext s ∈ s1.transaction_pool := by
  refine ⟨{ s with
      transaction_pool :=
        (s.transaction_pool ++ oldTip.data) ++ [createNewCoin ext s],
      blockchain := cand ++ [ext.createFrom candTip],
      transaction_map := (ext.verifyChain cand).transaction_map },
    ?_, rfl, by simp, rfl, rfl, ?_, ?_⟩
  · simp [receiveNewBlockchain, h1, h2, latestBlock, h0, pushNewBlock,
      h3, addTransactionToPool, createNewCoin, Transaction.create]
  · intro t ht
    exact List.mem_append_left _ (List.mem_append_right _ ht)
  · exact List.mem_append_right _ (List.mem_singleton_self _)

/-- C2 witness: the one-block miner adopting the verified two-block
candidate [blk0, blkB]. -/
theorem receiveNewBlockchain_adopt_spec_witness :
    ∃ s1, receiveNewBlockchain extValid [blk0, blkB] miner0 = some s1 ∧
      s1.blockchain = [blk0, blkB] ++ [extValid.createFrom blkB] ∧
      s1.blockchain.length = [blk0, blkB].length + 1 ∧
      s1.transaction_map = (extValid.verifyChain [blk0, blkB]).transaction_map ∧
      s1.transaction_pool =
        (miner0.transaction_pool ++ blk0.data) ++ [createNewCoin extValid miner0] ∧
      (∀ t ∈ blk0.data, t ∈ s1.transaction_pool) ∧
      createNewCoin extValid miner0 ∈ s1.transaction_pool :=
  receiveNewBlockchain_adopt_spec extValid [blk0, blkB] miner0 blk0 blkB
    (by decide) (by decide) rfl (by decide)

/-- C7: in the hashing step, if the node is not actively mining the
state is left untouched and the step reports the idle (unsolved)
outcome; if actively mining and the hash of the nonce-bumped tip does
not meet the leading-zero target, the only state change is the tip
block's nonce incremented by exactly one, and the step reports
unsolved. -/
theorem computeHash_frame (ext : Ext) (s : Miner) (tip : Block) :
    (s.actively_mining = false →
      computeHash ext s = some (s, HashResult.idle)) ∧
    (s.actively_mining = true → s.blockchain.getLast? = some tip →
      (ext.blockHash { tip with nonce := tip.nonce + 1 }).startsWith "000" = false →
      computeHash ext s = some
        ({ s with blockchain :=
            replaceTip s.blockchain { tip with nonce := tip.nonce + 1 } },
          HashResult.unsolved)) := by
  constructor
  · intro h
    simp [computeHash, h]
  · intro h h1 h2
    simp [computeHash, h, latestBlock, h1, h2]

/-- C7 witness: the throttled miner is unchanged; the mining miner
with a target-missing hash gets exactly its tip nonce bumped. -/
theorem computeHash_frame_witness :
    computeHash extBase miner0 = some (miner0, HashResult.idle) ∧
    computeHash extBase minerMining = some
      ({ minerMining with
          blockchain :=
            replaceTip minerMining.blockchain { blk0 with nonce := blk0.nonce + 1 } },
        HashResult.unsolved) :=
  ⟨(computeHash_frame extBase miner0 blk0).1 rfl,
    (computeHash_frame extBase minerMining blk0).2 rfl (by decide) (by decide)⟩

lemma afterCompletions_pending (ext : Ext) (s : Miner) :
    ∀ k, k < s.node_list.length → afterCompletions ext s k = some ⟨s, k⟩ := by
  intro k
  induction k with
  | zero =>
      intro _
      rfl
  | succ k ih =>
      intro hk
      have hk1 : k < s.node_list.length := Nat.lt_of_succ_lt hk
      have hne : ¬(k + 1 = s.node_list.length) := Nat.ne_of_lt hk
      simp [afterCompletions, ih hk1, exportCallback, hne]

/-- C4: broadcast-then-advance barrier: after a solve, as long as
fewer export-completion callbacks have fired than there are peers in
the node list, the node state is bit-for-bit unchanged — the
push-new-block step has not run, so the node's chain height never
advances before broadcast completion to all currently known peers. -/
theorem broadcast_barrier_safety (ext : Ext) (s : Miner) (k : Nat)
    (h : k < s.node_list.length) :
    afterCompletions ext s k = some ⟨s, k⟩ :=
  afterCompletions_pending ext s k h

/-- C4 witness: with two peers and one completed export, the concrete
miner is unchanged. -/
theorem broadcast_barrier_safety_witness :
    afterCompletions extBase minerPeers 1 = some ⟨minerPeers, 1⟩ :=
  broadcast_barrier_safety extBase minerPeers 1 (by decide)

/-- C5 (amended): whenever the hash target is met and the peer set is
nonempty, once the export to every peer in the node list has completed
the node appends exactly one new block created from the tip and
enqueues exactly one coinbase transaction in the pool; with an empty
peer set no export callback ever fires, so the push step never runs
and the solve never completes. -/
theorem solve_broadcast_then_push (ext : Ext) (s : Miner) (tip : Block)
    (h0 : s.node_list ≠ [])
    (h1 : s.blockchain.getLast? = some tip) :
    afterCompletions ext s s.node_list.length = some
      ⟨{ s with
          blockchain := s.blockchain ++ [ext.createFrom tip],
          transaction_pool := s.transaction_pool ++ [createNewCoin ext s] },
        s.node_list.length⟩ := by
  obtain ⟨m, hm⟩ : ∃ m, s.node_list.length = m + 1 := by
    cases hns : s.node_list with
    | nil => exact absurd hns h0
    | cons p ps => exact ⟨ps.length, rfl⟩
  have hp := afterCompletions_pending ext s m (by rw [hm]; exact Nat.lt_succ_self m)
  rw [hm]
  simp [afterCompletions, hp, exportCallback, hm, pushNewBlock, latestBlock,
    h1, addTransactionToPool, createNewCoin, Transaction.create]

/-- C5 witness: the two-peer miner, once both exports complete, has
one block appended from its tip and exactly one coinbase enqueued. -/
theorem solve_broadcast_then_push_witness :
    afterCompletions extBase minerPeers minerPeers.node_list.length = some
      ⟨{ minerPeers with
          blockchain := minerPeers.blockchain ++ [extBase.createFrom blk0],
          transaction_pool :=
            minerPeers.transaction_pool ++ [createNewCoin extBase minerPeers] },
        minerPeers.node_list.length⟩ :=
  solve_broadcast_then_push extBase minerPeers blk0 (by decide) (by decide)

/-- C5 counterexample: with an empty peer set, after all (zero)
possible export callbacks the broadcast is vacuously complete, yet the
node is bit-for-bit unchanged — its chain still holds one block and no
coinbase transaction was enqueued — because the push-new-block step
runs only inside a per-peer export callback and no callback can ever
fire, so the claim that the new block is still pushed fails. -/
theorem solve_empty_peerset_cex :
    minerMining.node_list = [] ∧
    afterCompletions extBase minerMining minerMining.node_list.length =
      some ⟨minerMining, 0⟩ ∧
    minerMining.blockchain.length = 1 ∧
    minerMining.transaction_pool = [] :=
  ⟨rfl, rfl, rfl, rfl⟩

lemma flushFold_eq_batchRun (ext : Ext) :
    ∀ (ts : List Tx) (s : Miner) (l : List Block) (tip : Block),
      s.blockchain = l ++ [tip] →
      ts.foldl (fun acc t => acc.bind fun n => flushTransaction ext n t) (some s) =
        some { s with
          transaction_map := (batchRun ext s.transaction_map tip ts).1,
          blockchain := l ++ [(batchRun ext s.transaction_map tip ts).2] } := by
  intro ts
  induction ts with
  | nil =>
      intro s l tip h
      simp [batchRun, ← h]
  | cons t ts ih =>
      intro s l tip h
      have hlb : latestBlock s = some tip := latestBlock_concat s l tip h
      by_cases hv :
          ext.verifyTx t s.transaction_map { tip with data := tip.data ++ [t] } = true
      · have hft : flushTransaction ext s t = some { s with
            transaction_map := Transaction.addToMap t s.transaction_map,
            blockchain := l ++ [Block.addTransaction tip t] } := by
          have hr : replaceTip s.blockchain (Block.addTransaction tip t) =
              l ++ [Block.addTransaction tip t] := by
            rw [h]
            exact replaceTip_concat l tip (Block.addTransaction tip t)
          simp [flushTransaction, hlb, hv, hr]
        have hstep := ih { s with
            transaction_map := Transaction.addToMap t s.transaction_map,
            blockchain := l ++ [Block.addTransaction tip t] } l
          (Block.addTransaction tip t) rfl
        simp only [List.foldl_cons, Option.bind_eq_bind, Option.some_bind, hft, hstep]
        simp [batchRun, hv, Transaction.addToMap, Block.addTransaction]
      · have hft : flushTransaction ext s t = some s := by
          simp [flushTransaction, hlb, hv]
        have hstep := ih s l tip h
        simp only [List.foldl_cons, Option.bind_eq_bind, Option.some_bind, hft, hstep]
        simp [batchRun, hv]

lemma batchRun_sound (ext : Ext) :
    ∀ (ts : List Tx) (m : TxMap) (b : Block) (t : Tx),
      (t ∈ (batchRun ext m b ts).2.data ∨ t ∈ (batchRun ext m b ts).1) →
      (t ∈ b.data ∨ t ∈ m) ∨
        ∃ p ∈ midStates ext m b ts,
          ext.verifyTx t p.1 { p.2 with data := p.2.data ++ [t] } = true := by
  intro ts
  induction ts with
  | nil =>
      intro m b t ht
      simp only [batchRun] at ht
      exact Or.inl ht
  | cons t0 ts ih =>
      intro m b t ht
      by_cases hv : ext.verifyTx t0 m { b with data := b.data ++ [t0] } = true
      · simp only [batchRun, hv, if_true] at ht
        rcases ih (Transaction.addToMap t0 m) { b with data := b.data ++ [t0] } t ht
          with hin | ⟨p, hp, hvp⟩
        · rcases hin with hd | hm
          · rcases List.mem_append.mp hd with hd0 | hd1
            · exact Or.inl (Or.inl hd0)
            · have ht0 : t = t0 := List.mem_singleton.mp hd1
              refine Or.inr ⟨(m, b), by simp [midStates, hv], ?_⟩
              rw [ht0]
              exact hv
          · rcases List.mem_cons.mp hm with ht0 | hm0
            · refine Or.inr ⟨(m, b), by simp [midStates, hv], ?_⟩
              rw [ht0]
              exact hv
            · exact Or.inl (Or.inr hm0)
        · refine Or.inr ⟨p, ?_, hvp⟩
          simp only [midStates, hv, if_true]
          exact List.mem_cons_of_mem _ hp
      · simp only [batchRun, hv, if_false] at ht
        rcases ih m b t ht with hin | ⟨p, hp, hvp⟩
        · exact Or.inl hin
        · refine Or.inr ⟨p, ?_, hvp⟩
          simp only [midStates, hv, if_false]
          exact List.mem_cons_of_mem _ hp

/-- C3 (amended): after a pool flush on a non-empty chain, the pool is
empty (it is drained as the flush begins and validations run on the
drained batch); the tip block and transaction map are exactly those
produced by processing the batch in order; and every transaction newly
present in the tip block's data or in the transaction map was approved
by the external validator against the transaction map and tentatively
extended tip block as they stood at that transaction's validation step
within the batch — a context that includes earlier same-batch
acceptances, not necessarily the pre-flush index.  Transactions whose
validation step fails contribute nothing to the tip block or the map
and do not return to the pool. -/
theorem flushTransactionPool_spec (ext : Ext) (s : Miner) (l : List Block)
    (tip : Block) (h : s.blockchain = l ++ [tip]) :
    flushTransactionPool ext s = some
      { s with
        transaction_pool := [],
        transaction_map := (batchRun ext s.transaction_map tip s.transaction_pool).1,
        blockchain := l ++ [(batchRun ext s.transaction_map tip s.transaction_pool).2] } ∧
    ∀ t, (t ∈ (batchRun ext s.transaction_map tip s.transaction_pool).2.data ∨
          t ∈ (batchRun ext s.transaction_map tip s.transaction_pool).1) →
      (t ∈ tip.data ∨ t ∈ s.transaction_map) ∨
        ∃ p ∈ midStates ext s.transaction_map tip s.transaction_pool,
          ext.verifyTx t p.1 { p.2 with data := p.2.data ++ [t] } = true := by
  constructor
  · have hb := flushFold_eq_batchRun ext s.transaction_pool
      { s with transaction_pool := [] } l tip h
    simpa [flushTransactionPool] using hb
  · intro t ht
    exact batchRun_sound ext s.transaction_pool s.transaction_map tip t ht

/-- C3 witness: flushing the one-transaction pool of the concrete
miner empties the pool and commits the batch result to tip and map. -/
theorem flushTransactionPool_spec_witness :
    flushTransactionPool extBase minerPoolW = some
      { minerPoolW with
        transaction_pool := [],
        transaction_map :=
          (batchRun extBase minerPoolW.transaction_map blk0
            minerPoolW.transaction_pool).1,
        blockchain :=
          [] ++ [(batchRun extBase minerPoolW.transaction_map blk0
            minerPoolW.transaction_pool).2] } :=
  (flushTransactionPool_spec extBase minerPoolW [] blk0 rfl).1

/-- C3 counterexample: with a validator that accepts tx1 always and
any other transaction exactly when the index is nonempty, flushing the
pool [tx1, tx2] commits tx2 to the tip block — yet tx2 fails the
validator against the pre-flush transaction index (empty) and
pre-flush tip context, refuting the claim that every newly committed
transaction passed validation against the pre-flush index. -/
theorem flush_preflush_index_cex :
    flushTransactionPool extC3 sC3 = some
      { sC3 with
        transaction_pool := [],
        transaction_map := [tx2, tx1],
        blockchain := [{ blk0 with data := [tx1, tx2] }] } ∧
    extC3.verifyTx tx2 sC3.transaction_map
      { blk0 with data := blk0.data ++ [tx2] } = false ∧
    tx2 ∉ blk0.data := by
  refine ⟨by decide, rfl, by decide⟩

end MinerBlockchain
